import Mathlib

/-!
Verification of the `Step` incremental collaborative-filtering engine
(`nbs/step.ipynb`, exported module `step`).

The engine is embedded at two levels, matching how the source itself uses its
collaborators:

* a concrete level for construction, prediction and persistence, where the
  model's embedding tables are explicit matrices of rationals
  (`Step.__init__`, `Step.predict`, `Step.save`, `Step.load`); and
* a parametric level for the training loops (`Step.batch_fit`, `Step.step`),
  where the model's forward pass, the confidence function, automatic
  differentiation (`loss.backward()`) and the optimizer are explicit
  functional collaborators, exactly as the source treats them as opaque
  callables.

Real tensors are embedded as lists of rationals; Python exceptions are
embedded as an explicit error type returned through `Except`.
-/

namespace CfStep

/-- Failure modes surfaced by the engine.  `indexError` stands for Python's
`IndexError` (tensor column / embedding-row indexing), `assertionUser` and
`assertionItem` for the two `assert` failures in `Step.__init__`,
`noneTypeError` for the `AttributeError` raised by `None.to(device)`,
`gradError` for torch's "grad can be implicitly created only for scalar
outputs", and `corruptState` for a `load_state_dict` shape mismatch. -/
inductive StepError where
  | indexError
  | assertionUser
  | assertionItem
  | noneTypeError
  | gradError
  | corruptState
deriving DecidableEq

/-- Dot product of two equally long vectors (`item_embeddings @ user_embedding.T`). -/
def dot (a b : List ℚ) : ℚ := (List.zipWith (fun x y => x * y) a b).sum

/-- The externally supplied `torch.nn.Module`: the two embedding tables each
either present (`some` rows) or absent/None (`none`), plus any remaining
parameters that also live in the module's `state_dict`. -/
structure PyModel where
  user_embeddings : Option (List (List ℚ))
  item_embeddings : Option (List (List ℚ))
  other_params : List ℚ

/-- The engine after a successful `Step.__init__`: both embedding tables
resolved, plus the configuration the engine instance binds (optimizer state
and device identifier) which is *not* part of the model's `state_dict`. -/
structure Step where
  user_embeddings : List (List ℚ)
  item_embeddings : List (List ℚ)
  other_params : List ℚ
  optimizer_state : List ℚ
  device : String

/-- `Step.__init__`: asserts that `model.user_embeddings` and
`model.item_embeddings` are present (truthy), in that order, and binds the
model together with the engine configuration. -/
def stepInit (model : PyModel) (optimizer_state : List ℚ) (device : String) :
    Except StepError Step :=
  match model.user_embeddings with
  | none => .error .assertionUser
  | some u =>
    match model.item_embeddings with
    | none => .error .assertionItem
    | some i => .ok ⟨u, i, model.other_params, optimizer_state, device⟩

/-- The vector of scores `item_embeddings @ user_embedding.T` computed by
`Step.predict` for a given user row. -/
def scoresOf (en : Step) (user : Nat) : List ℚ :=
  en.item_embeddings.map (fun ie => dot ie (en.user_embeddings.getD user []))

/-- Score of item `j` for `user` (entry `j` of the squeezed score vector). -/
def scoreAt (en : Step) (user : Nat) (j : Nat) : ℚ :=
  (scoresOf en user).getD j 0

/-- `torch.argsort` (ascending) on a score vector: the indices
`0, …, n-1` sorted so that earlier indices carry smaller scores. -/
def argsortAsc (s : List ℚ) : List Nat :=
  List.insertionSort (fun i j => s.getD i 0 ≤ s.getD j 0) (List.range s.length)

/-- `Step.predict`: look up the user's embedding row (raising `IndexError`
when the id is outside the table), score every item by dot product, sort the
item indices by ascending score, and return the Python slice `[-k:]` of that
ascending order.  (`[-0:]` is the whole list in Python.) -/
def predict (en : Step) (user : Nat) (k : Nat) : Except StepError (List Nat) :=
  if user < en.user_embeddings.length then
    let order := argsortAsc (scoresOf en user)
    if k = 0 then .ok order else .ok (order.drop (order.length - k))
  else .error .indexError

/-- The model's `state_dict()`: every model parameter (both embedding tables
and the remaining parameters), and nothing else. -/
structure StateDict where
  user_w : List (List ℚ)
  item_w : List (List ℚ)
  other_w : List ℚ
deriving DecidableEq

/-- `Step.save`: `torch.save(self.model.state_dict(), path)` — serializes
exactly the model's parameter state. -/
def save (en : Step) : StateDict :=
  ⟨en.user_embeddings, en.item_embeddings, en.other_params⟩

/-- Shape of an embedding table (row lengths), used by `load_state_dict`'s
shape check. -/
def shapeOf (t : List (List ℚ)) : List Nat := t.map List.length

/-- `Step.load`: `self.model.load_state_dict(torch.load(path))` — replaces
the model's parameters with the stored ones, failing when the stored shapes
do not match the current model's. -/
def load (en : Step) (s : StateDict) : Except StepError Step :=
  if shapeOf s.user_w = shapeOf en.user_embeddings ∧
      shapeOf s.item_w = shapeOf en.item_embeddings ∧
      s.other_w.length = en.other_params.length then
    .ok ⟨s.user_w, s.item_w, s.other_w, en.optimizer_state, en.device⟩
  else .error .corruptState

/-! ## The training pipeline (`batch_fit` / `step`)

The source treats the model, objective, optimizer and confidence function as
opaque callables; we embed them as explicit functional collaborators over a
flat parameter vector `List ℚ`, with `loss.backward()` given by a gradient
oracle applied to the loss as a function of the parameters. -/

/-- The engine's objective: whether it exposes a mutable `weight` attribute
(detected with `hasattr` in the source), the currently stored weight, and the
callable itself, producing the per-example loss vector from the stored
weight, the predictions, and the preference targets. -/
structure Objective where
  hasWeight : Bool
  weight : List ℚ
  app : List ℚ → List ℚ → List ℚ → List ℚ

/-- The collaborators bound by the engine, over an optimizer-state type `σ`:
the model's forward pass `params → user → item → prediction`, the confidence
function on a single rating, the gradient oracle (`loss.backward()` on a
scalar-valued loss of the parameters), and `optimizer.step()` mapping
optimizer state, parameters and accumulated gradients to new state and new
parameters. -/
structure Collab (σ : Type) where
  forward : List ℚ → ℚ → ℚ → ℚ
  conf_func : ℚ → ℚ
  backward : (List ℚ → ℚ) → List ℚ → List ℚ
  optStep : σ → List ℚ → List ℚ → σ × List ℚ

/-- The engine's mutable training state: model parameters, optimizer state,
the objective (whose `weight` slot the engine mutates), and the gradients
accumulated in the parameters' `.grad` slots. -/
structure TrainState (σ : Type) where
  params : List ℚ
  optState : σ
  objective : Objective
  grads : List ℚ

/-- Tensor column extraction `features[:, j]`: raises `IndexError` when the
column index is out of range for some row. -/
def getCol : List (List ℚ) → Nat → Option (List ℚ)
  | [], _ => some []
  | r :: rs, j =>
    match r.get? j, getCol rs j with
    | some x, some xs => some (x :: xs)
    | _, _ => none

/-- `torch.Tensor.mean()` over a vector of losses. -/
def tmean (xs : List ℚ) : ℚ := xs.sum / xs.length

/-- `if hasattr(self.objective, 'weight'): self.objective.weight = confs`. -/
def injectWeight (obj : Objective) (confs : List ℚ) : Objective :=
  if obj.hasWeight then ⟨obj.hasWeight, confs, obj.app⟩ else obj

/-- Calling the objective on predictions and targets, using its stored
weight. -/
def applyObjective (obj : Objective) (preds prefs : List ℚ) : List ℚ :=
  obj.app obj.weight preds prefs

/-- One iteration of the inner loop of `Step.batch_fit` on one
`(features, preferences)` batch: extract the user/item/rating columns,
compute predictions and confidences, inject the weight if supported, take
the mean loss, backpropagate, apply one optimizer step, and zero the
gradients. -/
def processBatch (C : Collab σ) (st : TrainState σ)
    (features : List (List ℚ)) (preferences : List ℚ) :
    Except StepError (TrainState σ) :=
  match getCol features 0 with
  | none => .error .indexError
  | some users =>
    match getCol features 1 with
    | none => .error .indexError
    | some items =>
      match getCol features 2 with
      | none => .error .indexError
      | some rtngs =>
        let confs := rtngs.map C.conf_func
        let obj := injectWeight st.objective confs
        let lossF : List ℚ → ℚ := fun θ =>
          tmean (applyObjective obj (List.zipWith (C.forward θ) users items) preferences)
        let g := C.backward lossF st.params
        let grads2 := List.zipWith (fun a b => a + b) st.grads g
        let res := C.optStep st.optState st.params grads2
        .ok ⟨res.2, res.1, obj, res.2.map (fun _ => 0)⟩

/-- Run a body over a list, propagating the first raised exception, exactly
as a Python `for` loop does. -/
def runSeq (f : α → β → Except StepError α) : α → List β → Except StepError α
  | st, [] => .ok st
  | st, b :: bs =>
    match f st b with
    | .error e => .error e
    | .ok st2 => runSeq f st2 bs

/-- One epoch of `Step.batch_fit`: the inner `for` loop over the data
loader's batches, in iteration order. -/
def batchFitEpoch (C : Collab σ) (st : TrainState σ)
    (dl : List (List (List ℚ) × List ℚ)) : Except StepError (TrainState σ) :=
  runSeq (fun s b => processBatch C s b.1 b.2) st dl

/-- `Step.batch_fit(data_loader, epochs)`: the outer `for epoch in
range(epochs)` loop around `batchFitEpoch`. -/
def batch_fit (C : Collab σ) (st : TrainState σ)
    (dl : List (List (List ℚ) × List ℚ)) (epochs : Nat) :
    Except StepError (TrainState σ) :=
  runSeq (fun s _ => batchFitEpoch C s dl) st (List.range epochs)

/-- `Step.step(user, item, rating, preference)`: `rating` and `preference`
default to `None`, and `rating.to(device)` / `preference.to(device)` raise on
`None` before the model's forward pass runs.  Otherwise the pipeline mirrors
one batch iteration but calls `backward()` on the objective's output without
`.mean()`, which torch accepts only for a single-element loss. -/
def step (C : Collab σ) (st : TrainState σ) (user item : List ℚ)
    (rating preference : Option (List ℚ)) : Except StepError (TrainState σ) :=
  match rating with
  | none => .error .noneTypeError
  | some rtng =>
    match preference with
    | none => .error .noneTypeError
    | some pref =>
      let confs := rtng.map C.conf_func
      let obj := injectWeight st.objective confs
      if (applyObjective obj (List.zipWith (C.forward st.params) user item) pref).length = 1 then
        let lossF : List ℚ → ℚ := fun θ =>
          (applyObjective obj (List.zipWith (C.forward θ) user item) pref).headD 0
        let g := C.backward lossF st.params
        let grads2 := List.zipWith (fun a b => a + b) st.grads g
        let res := C.optStep st.optState st.params grads2
        .ok ⟨res.2, res.1, obj, res.2.map (fun _ => 0)⟩
      else .error .gradError

/-- A dataset batch holding exactly one observation `(user, item, rating,
preference)`, as consumed by `batch_fit`. -/
def singleBatch (e : ℚ × ℚ × ℚ × ℚ) : List (List ℚ) × List ℚ :=
  ([[e.1, e.2.1, e.2.2.1]], [e.2.2.2])

/-- Wrap a collaborator set so that the optimizer state additionally counts
how many times `optimizer.step()` has been applied. -/
def counted (C : Collab σ) : Collab (σ × Nat) where
  forward := C.forward
  conf_func := C.conf_func
  backward := C.backward
  optStep := fun s θ g => ⟨⟨(C.optStep s.1 θ g).1, s.2 + 1⟩, (C.optStep s.1 θ g).2⟩

/-- The tail every training call shares once its loss function is built:
backpropagate, accumulate gradients, apply one optimizer step, zero the
gradients, and store the (possibly weight-injected) objective back. -/
def updateVia {σ : Type} (C : Collab σ) (st : TrainState σ) (obj : Objective)
    (lossF : List ℚ → ℚ) : TrainState σ :=
  let g := C.backward lossF st.params
  let grads2 := List.zipWith (fun a b => a + b) st.grads g
  let res := C.optStep st.optState st.params grads2
  ⟨res.2, res.1, obj, res.2.map (fun _ => 0)⟩

/-- Numerically observable part of a training state: parameters, optimizer
state and accumulated gradients (the objective holds functions and is
compared separately). -/
def obs {σ : Type} (t : TrainState σ) : List ℚ × σ × List ℚ :=
  (t.params, t.optState, t.grads)

/-- A small concrete objective exposing a `weight` slot: weighted sum of
differences, always producing a single-element loss tensor. -/
def toyObjective : Objective :=
  ⟨true, [1], fun w p t => [w.headD 1 * (List.zipWith (fun a b => a - b) p t).sum]⟩

/-- A small concrete collaborator set: multiplicative forward pass, identity
confidence, a simple gradient oracle and a subtractive optimizer. -/
def toyCollab : Collab Unit :=
  ⟨fun θ u i => θ.headD 0 * u * i, fun r => r,
   fun f θ => θ.map (fun _ => f θ),
   fun s θ g => (s, List.zipWith (fun a b => a - b) θ g)⟩

/-- A concrete initial training state for `toyCollab`. -/
def toyState : TrainState Unit := ⟨[0], (), toyObjective, [0]⟩

/-- `toyState` with an update-counting optimizer state. -/
def toyStateC : TrainState (Unit × Nat) := ⟨[0], ⟨(), 0⟩, toyObjective, [0]⟩

/-- A concrete engine with one user and two items in dimension 1. -/
def demoEngine : Step := ⟨[[1]], [[1], [2]], [], [], "cpu"⟩

/-! ## Theorems -/

/-- C6: `Step.__init__` fails (with the missing-embedding assertion)
whenever the supplied model lacks either embedding table, and succeeds
whenever both tables are present and non-empty. -/
theorem stepInit_requires_embeddings (m : PyModel) (os : List ℚ) (d : String) :
    ((m.user_embeddings = none ∨ m.item_embeddings = none) →
      ∃ e, stepInit m os d = .error e) ∧
    (∀ U I, m.user_embeddings = some U → m.item_embeddings = some I →
      U ≠ [] → I ≠ [] → ∃ en, stepInit m os d = .ok en) := by
  constructor
  · rintro (h | h)
    · exact ⟨.assertionUser, by simp [stepInit, h]⟩
    · cases hu : m.user_embeddings with
      | none => exact ⟨.assertionUser, by simp [stepInit, hu]⟩
      | some u => exact ⟨.assertionItem, by simp [stepInit, hu, h]⟩
  · intro U I hU hI _ _
    exact ⟨⟨U, I, m.other_params, os, d⟩, by simp [stepInit, hU, hI]⟩

theorem stepInit_requires_embeddings_witness :
    (∃ e, stepInit ⟨none, some [[1]], []⟩ [] "cpu" = .error e) ∧
    (∃ en, stepInit ⟨some [[1]], some [[2]], []⟩ [] "cpu" = .ok en) :=
  ⟨(stepInit_requires_embeddings ⟨none, some [[1]], []⟩ [] "cpu").1 (Or.inl rfl),
   (stepInit_requires_embeddings ⟨some [[1]], some [[2]], []⟩ [] "cpu").2
     [[1]] [[2]] rfl rfl (by simp) (by simp)⟩

/-- C7: `predict` called with a user id outside the user embedding table's
range raises the out-of-range error from the embedding lookup. -/
theorem predict_unknown_user (en : Step) (user k : Nat)
    (h : en.user_embeddings.length ≤ user) :
    predict en user k = .error .indexError := by
  simp [predict, Nat.not_lt.mpr h]

theorem predict_unknown_user_witness :
    predict demoEngine 1 10 = .error .indexError :=
  predict_unknown_user demoEngine 1 10 (by decide)

/-- C8: `save` followed by `load` into a freshly constructed model with
matching dimensionality reproduces the embedding tables exactly, and `save`
serializes only the model's parameter state — it is unchanged under any
optimizer state or device configuration of the engine. -/
theorem save_load_roundtrip (e fresh : Step)
    (hu : shapeOf fresh.user_embeddings = shapeOf e.user_embeddings)
    (hi : shapeOf fresh.item_embeddings = shapeOf e.item_embeddings)
    (ho : fresh.other_params.length = e.other_params.length) :
    (∃ r, load fresh (save e) = .ok r ∧
      r.user_embeddings = e.user_embeddings ∧
      r.item_embeddings = e.item_embeddings ∧
      r.other_params = e.other_params) ∧
    (∀ os d, save ⟨e.user_embeddings, e.item_embeddings, e.other_params, os, d⟩ = save e) := by
  constructor
  · exact ⟨⟨e.user_embeddings, e.item_embeddings, e.other_params,
      fresh.optimizer_state, fresh.device⟩, by simp [load, save, hu, hi, ho], rfl, rfl, rfl⟩
  · intro os d; rfl

theorem save_load_roundtrip_witness :
    ∃ r, load ⟨[[0]], [[0], [0]], [], [7], "gpu"⟩ (save demoEngine) = .ok r ∧
      r.user_embeddings = demoEngine.user_embeddings ∧
      r.item_embeddings = demoEngine.item_embeddings ∧
      r.other_params = demoEngine.other_params :=
  (save_load_roundtrip demoEngine ⟨[[0]], [[0], [0]], [], [7], "gpu"⟩
    (by decide) (by decide) (by decide)).1

/-- C10: although `rating` and `preference` default to `None`, a `step` call
that leaves either of them `None` fails (at `None.to(device)`) before the
model's forward pass runs and without touching any training state — the
result is the same error for every model, optimizer and state. -/
theorem step_none_rating_preference {σ : Type} (C : Collab σ) (st : TrainState σ)
    (user item : List ℚ) (r : List ℚ) :
    step C st user item none none = .error .noneTypeError ∧
    step C st user item none (some r) = .error .noneTypeError ∧
    step C st user item (some r) none = .error .noneTypeError :=
  ⟨rfl, rfl, rfl⟩

/-- C5: a `step` call either raises (returning no updated state at all) or
returns a state produced by exactly one application of `optimizer.step()` to
the prior parameters: the instrumented update counter increases by exactly
one, and the returned parameters are the optimizer's output, so the update is
fully applied in the state the call hands back. -/
theorem step_exactly_one_update {σ : Type} (C : Collab σ)
    (st : TrainState (σ × Nat)) (user item rtng pref : List ℚ) :
    (∃ e, step (counted C) st user item (some rtng) (some pref) = .error e) ∨
    (∃ g, step (counted C) st user item (some rtng) (some pref) =
      .ok ⟨(C.optStep st.optState.1 st.params g).2,
        ⟨(C.optStep st.optState.1 st.params g).1, st.optState.2 + 1⟩,
        injectWeight st.objective (rtng.map C.conf_func),
        ((C.optStep st.optState.1 st.params g).2).map (fun _ => 0)⟩) := by
  by_cases hcond : (applyObjective (injectWeight st.objective (rtng.map C.conf_func))
      (List.zipWith (C.forward st.params) user item) pref).length = 1
  · right
    refine ⟨List.zipWith (fun a b => a + b) st.grads
      (C.backward (fun θ =>
        (applyObjective (injectWeight st.objective (rtng.map C.conf_func))
          (List.zipWith (C.forward θ) user item) pref).headD 0) st.params), ?_⟩
    show (if (applyObjective (injectWeight st.objective (rtng.map C.conf_func))
        (List.zipWith (C.forward st.params) user item) pref).length = 1 then _ else
        Except.error StepError.gradError) = _
    rw [if_pos hcond]
    rfl
  · left
    refine ⟨.gradError, ?_⟩
    show (if (applyObjective (injectWeight st.objective (rtng.map C.conf_func))
        (List.zipWith (C.forward st.params) user item) pref).length = 1 then _ else
        Except.error StepError.gradError) = _
    rw [if_neg hcond]

/-- Column extraction fails exactly when some row is too short. -/
theorem getCol_eq_none_iff (rows : List (List ℚ)) (j : Nat) :
    getCol rows j = none ↔ ∃ r ∈ rows, r.length ≤ j := by
  induction rows with
  | nil => simp [getCol]
  | cons r rs ih =>
    simp only [getCol, List.mem_cons]
    cases hr : r.get? j with
    | none =>
      have hrl : r.length ≤ j := List.get?_eq_none.mp hr
      constructor
      · intro _
        exact ⟨r, Or.inl rfl, hrl⟩
      · intro _
        cases getCol rs j <;> rfl
    | some x =>
      have hrl : j < r.length := by
        by_contra hc
        rw [List.get?_eq_none.mpr (by omega)] at hr
        exact Option.noConfusion hr
      cases hs : getCol rs j with
      | none =>
        constructor
        · intro _
          obtain ⟨q, hq, hql⟩ := ih.mp hs
          exact ⟨q, Or.inr hq, hql⟩
        · intro _; rfl
      | some xs =>
        constructor
        · intro h
          exact Option.noConfusion h
        · rintro ⟨q, hq | hq, hql⟩
          · subst hq; omega
          · rw [ih.mpr ⟨q, hq, hql⟩] at hs
            exact Option.noConfusion hs

/-- Columns with index below 3 are unchanged by truncating every row to its
first three entries. -/
theorem getCol_take_three (rows : List (List ℚ)) (j : Nat) (hj : j < 3) :
    getCol (rows.map (fun r => r.take 3)) j = getCol rows j := by
  induction rows with
  | nil => rfl
  | cons r rs ih =>
    simp only [List.map_cons, getCol, ih, List.get?_take hj]

/-- C2 (amended): a batch whose feature tensor has fewer than 3 columns makes
`batch_fit` fail with the column-indexing error before any optimizer update,
leaving the training state unchanged, while a feature tensor with more than 3
columns is processed without error exactly as if the columns beyond the first
three were dropped. -/
theorem batch_fit_column_check {σ : Type} (C : Collab σ) (st : TrainState σ)
    (features : List (List ℚ)) (prefs : List ℚ) :
    ((∃ r ∈ features, r.length < 3) →
      batch_fit C st [(features, prefs)] 1 = .error .indexError) ∧
    ((∀ r ∈ features, 3 ≤ r.length) →
      batch_fit C st [(features, prefs)] 1 =
        batch_fit C st [(features.map (fun r => r.take 3), prefs)] 1) := by
  have hbf : ∀ f p, batch_fit C st [(f, p)] 1 = processBatch C st f p := by
    intro f p
    show runSeq _ st (List.range 1) = _
    have hr1 : List.range 1 = [0] := rfl
    rw [hr1]
    cases hpb : processBatch C st f p with
    | error e => simp [runSeq, batchFitEpoch, hpb]
    | ok st2 => simp [runSeq, batchFitEpoch, hpb]
  constructor
  · intro h
    obtain ⟨r, hr, hrl⟩ := h
    rw [hbf]
    have h2 : getCol features 2 = none :=
      (getCol_eq_none_iff features 2).mpr ⟨r, hr, by omega⟩
    unfold processBatch
    cases h0 : getCol features 0 with
    | none => rfl
    | some users =>
      cases h1 : getCol features 1 with
      | none => rfl
      | some items => rw [h2]
  · intro h
    rw [hbf, hbf]
    unfold processBatch
    rw [getCol_take_three features 0 (by omega), getCol_take_three features 1 (by omega),
      getCol_take_three features 2 (by omega)]

theorem batch_fit_column_check_witness :
    batch_fit toyCollab toyState [([[1, 2], [3, 4]], [5, 6])] 1 =
      .error .indexError ∧
    batch_fit toyCollab toyState [([[1, 2, 3, 4]], [5])] 1 =
      batch_fit toyCollab toyState [([[1, 2, 3]], [5])] 1 :=
  ⟨(batch_fit_column_check toyCollab toyState [[1, 2], [3, 4]] [5, 6]).1
      ⟨[1, 2], by simp, by simp⟩,
   (batch_fit_column_check toyCollab toyState [[1, 2, 3, 4]] [5]).2
      (by intro r hr; simp at hr; simp [hr])⟩

/-- C2, counterexample to the claim as stated: a 4-column batch does not
raise any error — `batch_fit` succeeds and the parameters change. -/
theorem batch_fit_four_columns_no_error :
    (batch_fit toyCollab toyState [([[1, 2, 3, 4]], [5])] 1).map (fun t => t.params) =
      .ok [15] ∧ toyState.params ≠ [15] := by
  constructor
  · simp [batch_fit, batchFitEpoch, runSeq, processBatch, getCol, tmean, injectWeight,
      applyObjective, toyCollab, toyObjective, toyState, List.range, Except.map]
    norm_num
  · simp [toyState]

/-- Splitting a sequential run over an appended list. -/
theorem runSeq_append (f : α → β → Except StepError α) (st : α) (l1 l2 : List β) :
    runSeq f st (l1 ++ l2) =
      match runSeq f st l1 with
      | .error e => .error e
      | .ok s => runSeq f s l2 := by
  induction l1 generalizing st with
  | nil => simp [runSeq]
  | cons b bs ih =>
    simp only [List.cons_append, runSeq]
    cases f st b with
    | error e => rfl
    | ok s2 => exact ih s2

/-- A sequential run over a single element is that element's call. -/
theorem runSeq_singleton (f : α → β → Except StepError α) (st : α) (b : β) :
    runSeq f st [b] = f st b := by
  cases h : f st b with
  | error e => simp [runSeq, h]
  | ok s => simp [runSeq, h]

/-- A successful `processBatch` under the counting optimizer applies exactly
one optimizer update. -/
theorem processBatch_counted_inc {σ : Type} (C : Collab σ)
    (s t : TrainState (σ × Nat)) (f : List (List ℚ)) (p : List ℚ)
    (h : processBatch (counted C) s f p = .ok t) :
    t.optState.2 = s.optState.2 + 1 := by
  unfold processBatch at h
  cases h0 : getCol f 0 with
  | none => simp only [h0] at h; exact Except.noConfusion h
  | some users =>
    simp only [h0] at h
    cases h1 : getCol f 1 with
    | none => simp only [h1] at h; exact Except.noConfusion h
    | some items =>
      simp only [h1] at h
      cases h2 : getCol f 2 with
      | none => simp only [h2] at h; exact Except.noConfusion h
      | some rtngs =>
        simp only [h2] at h
        cases h
        rfl

/-- Along a successful sequential run of batches, the counting optimizer's
counter advances by exactly the number of batches. -/
theorem runSeq_counted_count {σ : Type} (C : Collab σ)
    (l : List (List (List ℚ) × List ℚ)) :
    ∀ s t : TrainState (σ × Nat),
      runSeq (fun s b => processBatch (counted C) s b.1 b.2) s l = .ok t →
      t.optState.2 = s.optState.2 + l.length := by
  induction l with
  | nil =>
    intro s t h
    simp only [runSeq] at h
    cases h
    simp
  | cons b bs ih =>
    intro s t h
    simp only [runSeq] at h
    cases hpb : processBatch (counted C) s b.1 b.2 with
    | error e => simp only [hpb] at h; exact Except.noConfusion h
    | ok s2 =>
      simp only [hpb] at h
      have h2 := ih s2 t h
      have h1 := processBatch_counted_inc C s s2 b.1 b.2 hpb
      simp only [List.length_cons]
      omega

/-- `batch_fit` is the sequential run of `processBatch` over `epochs`
concatenated copies of the dataset, in iteration order. -/
theorem batch_fit_eq_join {σ : Type} (C : Collab σ)
    (dl : List (List (List ℚ) × List ℚ)) (epochs : Nat) :
    ∀ st : TrainState σ, batch_fit C st dl epochs =
      runSeq (fun s b => processBatch C s b.1 b.2) st (List.replicate epochs dl).flatten := by
  induction epochs with
  | zero => intro st; rfl
  | succ n ih =>
    intro st
    show runSeq (fun s _ => batchFitEpoch C s dl) st (List.range (n + 1)) = _
    rw [List.range_succ, runSeq_append, List.replicate_succ', List.flatten_append, runSeq_append]
    have ih2 : runSeq (fun s _ => batchFitEpoch C s dl) st (List.range n) =
        runSeq (fun s b => processBatch C s b.1 b.2) st (List.replicate n dl).flatten := ih st
    rw [ih2]
    cases runSeq (fun s b => processBatch C s b.1 b.2) st (List.replicate n dl).flatten with
    | error e => rfl
    | ok s =>
      show runSeq (fun s _ => batchFitEpoch C s dl) s [n] =
        runSeq (fun s b => processBatch C s b.1 b.2) s [dl].flatten
      have hj : [dl].flatten = dl := by simp
      rw [runSeq_singleton, hj]
      rfl

/-- C4: `batch_fit(dataset, epochs)` performs the per-batch update pipeline
once per batch per epoch, strictly in the dataset's iteration order — it
equals the sequential run of `processBatch` over `epochs` concatenated
copies of the dataset, and under a counting optimizer a completed run has
applied exactly `epochs * (number of batches)` optimizer updates. -/
theorem batch_fit_once_per_batch_in_order {σ : Type} (C : Collab σ)
    (st : TrainState σ) (stc : TrainState (σ × Nat))
    (dl : List (List (List ℚ) × List ℚ)) (epochs : Nat) :
    batch_fit C st dl epochs =
      runSeq (fun s b => processBatch C s b.1 b.2) st (List.replicate epochs dl).flatten ∧
    ((∃ e, batch_fit (counted C) stc dl epochs = .error e) ∨
      (batch_fit (counted C) stc dl epochs).map (fun t => t.optState.2) =
        .ok (stc.optState.2 + epochs * dl.length)) := by
  constructor
  · exact batch_fit_eq_join C dl epochs st
  · cases hb : batch_fit (counted C) stc dl epochs with
    | error e => exact Or.inl ⟨e, rfl⟩
    | ok t =>
      right
      have hjoin := batch_fit_eq_join (counted C) dl epochs stc
      rw [hb] at hjoin
      have hc := runSeq_counted_count C (List.replicate epochs dl).flatten stc t hjoin.symm
      have hlen : (List.replicate epochs dl).flatten.length = epochs * dl.length := by
        rw [List.length_flatten]
        simp [List.map_replicate, List.sum_replicate, smul_eq_mul]
      simp [Except.map, hc, hlen]

/-- Weight injection never changes the objective's callable. -/
theorem injectWeight_app (obj : Objective) (confs : List ℚ) :
    (injectWeight obj confs).app = obj.app := by
  unfold injectWeight
  split <;> rfl

/-- Reduction of a `step` call with both optional arguments supplied. -/
theorem step_some_eq {σ : Type} (C : Collab σ) (st : TrainState σ)
    (user item rtng pref : List ℚ) :
    step C st user item (some rtng) (some pref) =
      if (applyObjective (injectWeight st.objective (rtng.map C.conf_func))
          (List.zipWith (C.forward st.params) user item) pref).length = 1 then
        .ok (updateVia C st (injectWeight st.objective (rtng.map C.conf_func))
          (fun θ => (applyObjective (injectWeight st.objective (rtng.map C.conf_func))
            (List.zipWith (C.forward θ) user item) pref).headD 0))
      else .error .gradError := rfl

/-- Reduction of a `processBatch` call whose column extractions succeed. -/
theorem processBatch_eq {σ : Type} (C : Collab σ) (st : TrainState σ)
    (features : List (List ℚ)) (prefs users items rtngs : List ℚ)
    (h0 : getCol features 0 = some users) (h1 : getCol features 1 = some items)
    (h2 : getCol features 2 = some rtngs) :
    processBatch C st features prefs =
      .ok (updateVia C st (injectWeight st.objective (rtngs.map C.conf_func))
        (fun θ => tmean (applyObjective (injectWeight st.objective (rtngs.map C.conf_func))
          (List.zipWith (C.forward θ) users items) prefs))) := by
  unfold processBatch
  simp only [h0, h1, h2]
  rfl

/-- The mean of a single-element loss tensor is that element. -/
theorem tmean_length_one (l : List ℚ) (h : l.length = 1) : tmean l = l.headD 0 := by
  cases l with
  | nil => simp at h
  | cons a as =>
    cases as with
    | nil => simp [tmean]
    | cons b bs => simp at h

/-- On a single-observation batch the batch pipeline coincides with the
incremental pipeline: the mean of the one-element loss is that loss. -/
theorem processBatch_single_eq_step {σ : Type} (C : Collab σ) (s : TrainState σ)
    (u i r p : ℚ)
    (hl : ∀ w preds, (s.objective.app w preds [p]).length = 1) :
    processBatch C s [[u, i, r]] [p] = step C s [u] [i] (some [r]) (some [p]) := by
  have happ : (injectWeight s.objective ([r].map C.conf_func)).app = s.objective.app :=
    injectWeight_app _ _
  have hcond : (applyObjective (injectWeight s.objective ([r].map C.conf_func))
      (List.zipWith (C.forward s.params) [u] [i]) [p]).length = 1 := by
    unfold applyObjective
    rw [happ]
    exact hl _ _
  rw [processBatch_eq C s [[u, i, r]] [p] [u] [i] [r] rfl rfl rfl, step_some_eq, if_pos hcond]
  have hfun : (fun θ => tmean (applyObjective (injectWeight s.objective ([r].map C.conf_func))
      (List.zipWith (C.forward θ) [u] [i]) [p])) =
      (fun θ => (applyObjective (injectWeight s.objective ([r].map C.conf_func))
        (List.zipWith (C.forward θ) [u] [i]) [p]).headD 0) := by
    funext θ
    apply tmean_length_one
    unfold applyObjective
    rw [happ]
    exact hl _ _
  rw [hfun]

/-- Sequencing single-observation batches through `processBatch` equals
sequencing the corresponding `step` calls, as long as the objective always
produces single-element losses on single targets. -/
theorem runSeq_singleton_batches {σ : Type} (C : Collab σ)
    (examples : List (ℚ × ℚ × ℚ × ℚ)) :
    ∀ st : TrainState σ, (∀ w preds p, (st.objective.app w preds [p]).length = 1) →
      runSeq (fun s b => processBatch C s b.1 b.2) st (examples.map singleBatch) =
        runSeq (fun s e => step C s [e.1] [e.2.1] (some [e.2.2.1]) (some [e.2.2.2])) st examples := by
  induction examples with
  | nil =>
    intro st _
    rfl
  | cons e es ih =>
    intro st hl
    simp only [List.map_cons, runSeq, singleBatch]
    rw [processBatch_single_eq_step C st e.1 e.2.1 e.2.2.1 e.2.2.2
      (fun w preds => hl w preds e.2.2.2)]
    cases hstep : step C st [e.1] [e.2.1] (some [e.2.2.1]) (some [e.2.2.2]) with
    | error er => rfl
    | ok s2 =>
      apply ih
      have hobj : s2.objective.app = st.objective.app := by
        rw [step_some_eq] at hstep
        split at hstep
        · cases hstep
          show (injectWeight st.objective _).app = st.objective.app
          exact injectWeight_app _ _
        · exact Except.noConfusion hstep
      intro w preds p2
      rw [hobj]
      exact hl w preds p2

/-- C3: one epoch of `batch_fit` over a dataset of single-example batches
equals the same number of sequential `step` calls on the same examples in
the same order, with the same collaborators — the only pipeline difference,
`.mean()`, is the identity on a single-element loss. -/
theorem batch_fit_singleton_eq_steps {σ : Type} (C : Collab σ) (st : TrainState σ)
    (examples : List (ℚ × ℚ × ℚ × ℚ))
    (hl : ∀ w preds p, (st.objective.app w preds [p]).length = 1) :
    batch_fit C st (examples.map singleBatch) 1 =
      runSeq (fun s e => step C s [e.1] [e.2.1] (some [e.2.2.1]) (some [e.2.2.2])) st examples := by
  have h1 : batch_fit C st (examples.map singleBatch) 1 =
      runSeq (fun s b => processBatch C s b.1 b.2) st (examples.map singleBatch) := by
    have hj := batch_fit_eq_join C (examples.map singleBatch) 1 st
    simpa using hj
  rw [h1]
  exact runSeq_singleton_batches C examples st hl

theorem batch_fit_singleton_eq_steps_witness :
    batch_fit toyCollab toyState
        ([((1 : ℚ), (2 : ℚ), (3 : ℚ), (4 : ℚ)), (5, 6, 7, 8)].map singleBatch) 1 =
      runSeq (fun s e => step toyCollab s [e.1] [e.2.1] (some [e.2.2.1]) (some [e.2.2.2]))
        toyState [((1 : ℚ), (2 : ℚ), (3 : ℚ), (4 : ℚ)), (5, 6, 7, 8)] :=
  batch_fit_singleton_eq_steps toyCollab toyState _ (by intro w preds p; rfl)

/-- The constant-1 confidence function produces a vector of ones. -/
theorem map_one_eq_replicate (l : List ℚ) :
    l.map (fun _ => (1 : ℚ)) = List.replicate l.length 1 := by
  induction l with
  | nil => rfl
  | cons a as ih => simp [ih, List.replicate_succ]

/-- A successfully extracted column has one entry per row. -/
theorem getCol_length (rows : List (List ℚ)) (j : Nat) :
    ∀ v, getCol rows j = some v → v.length = rows.length := by
  induction rows with
  | nil =>
    intro v h
    cases h
    rfl
  | cons r rs ih =>
    intro v h
    simp only [getCol] at h
    cases hr : r.get? j with
    | none =>
      rw [hr] at h
      exact Option.noConfusion h
    | some x =>
      rw [hr] at h
      cases hs : getCol rs j with
      | none =>
        rw [hs] at h
        exact Option.noConfusion h
      | some xs =>
        rw [hs] at h
        cases h
        simp [ih xs hs]

/-- Elementwise multiplication by a long-enough vector of ones is the
identity. -/
theorem zipWith_replicate_one (xs : List ℚ) :
    ∀ n, xs.length ≤ n →
      List.zipWith (fun a b => a * b) (List.replicate n (1 : ℚ)) xs = xs := by
  induction xs with
  | nil => intro n _; simp
  | cons a as ih =>
    intro n h
    cases n with
    | zero => simp at h
    | succ m =>
      simp only [List.replicate_succ, List.zipWith_cons_cons, one_mul]
      rw [ih m (by simpa using h)]

/-- `processBatch` results (observed numerically) agree whenever the two
states share parameters, optimizer state and gradients and their objectives
compute the same losses after weight injection. -/
theorem processBatch_obs_congr {σ : Type} (C : Collab σ) (p q : TrainState σ)
    (features : List (List ℚ)) (prefs : List ℚ)
    (hp : p.params = q.params) (ho : p.optState = q.optState) (hg : p.grads = q.grads)
    (hobj : ∀ rtngs, getCol features 2 = some rtngs → ∀ preds,
      applyObjective (injectWeight p.objective (rtngs.map C.conf_func)) preds prefs =
        applyObjective (injectWeight q.objective (rtngs.map C.conf_func)) preds prefs) :
    (processBatch C p features prefs).map obs =
      (processBatch C q features prefs).map obs := by
  unfold processBatch
  cases h0 : getCol features 0 with
  | none => rfl
  | some users =>
    cases h1 : getCol features 1 with
    | none => rfl
    | some items =>
      cases h2 : getCol features 2 with
      | none => rfl
      | some rtngs =>
        have hloss : (fun θ => tmean (applyObjective (injectWeight p.objective
            (rtngs.map C.conf_func)) (List.zipWith (C.forward θ) users items) prefs)) =
            (fun θ => tmean (applyObjective (injectWeight q.objective
            (rtngs.map C.conf_func)) (List.zipWith (C.forward θ) users items) prefs)) := by
          funext θ
          rw [hobj rtngs h2]
        simp only [Except.map, obs, hp, ho, hg, hloss]

/-- The observable outcome of `updateVia` in terms of the state's fields. -/
theorem obs_updateVia {σ : Type} (C : Collab σ) (st : TrainState σ)
    (obj : Objective) (lossF : List ℚ → ℚ) :
    obs (updateVia C st obj lossF) =
      ((C.optStep st.optState st.params (List.zipWith (fun a b => a + b) st.grads
          (C.backward lossF st.params))).2,
        (C.optStep st.optState st.params (List.zipWith (fun a b => a + b) st.grads
          (C.backward lossF st.params))).1,
        ((C.optStep st.optState st.params (List.zipWith (fun a b => a + b) st.grads
          (C.backward lossF st.params))).2).map (fun _ => 0)) := rfl

/-- `step` results (observed numerically) agree under the same conditions. -/
theorem step_obs_congr {σ : Type} (C : Collab σ) (p q : TrainState σ)
    (user item rtng pref : List ℚ)
    (hp : p.params = q.params) (ho : p.optState = q.optState) (hg : p.grads = q.grads)
    (hobj : ∀ preds,
      applyObjective (injectWeight p.objective (rtng.map C.conf_func)) preds pref =
        applyObjective (injectWeight q.objective (rtng.map C.conf_func)) preds pref) :
    (step C p user item (some rtng) (some pref)).map obs =
      (step C q user item (some rtng) (some pref)).map obs := by
  have hfun : (fun θ => (applyObjective (injectWeight p.objective (rtng.map C.conf_func))
      (List.zipWith (C.forward θ) user item) pref).headD 0) =
      (fun θ => (applyObjective (injectWeight q.objective (rtng.map C.conf_func))
      (List.zipWith (C.forward θ) user item) pref).headD 0) := by
    funext θ
    rw [hobj]
  rw [step_some_eq, step_some_eq]
  simp only [apply_ite (Except.map obs)]
  simp only [Except.map, obs_updateVia]
  rw [hp, ho, hg, hfun, hobj]

/-- C9: with the constant-1 confidence function, an objective without a
weight slot and a weighted objective that scales the same base loss by its
injected weight make numerically identical updates, in both the batch and
the incremental pipeline. -/
theorem confidence_one_equiv {σ : Type}
    (fw : List ℚ → ℚ → ℚ → ℚ) (bw : (List ℚ → ℚ) → List ℚ → List ℚ)
    (os : σ → List ℚ → List ℚ → σ × List ℚ)
    (base : List ℚ → List ℚ → List ℚ)
    (params grads : List ℚ) (opt : σ) (w0 w1 : List ℚ)
    (features : List (List ℚ)) (prefs : List ℚ)
    (user item rtng pref : List ℚ)
    (hlen : ∀ preds, (base preds prefs).length = features.length)
    (hr : 1 ≤ rtng.length)
    (hlen1 : ∀ preds, (base preds pref).length = 1) :
    (processBatch ⟨fw, fun _ => 1, bw, os⟩
        ⟨params, opt, ⟨false, w0, fun _ p t => base p t⟩, grads⟩ features prefs).map obs =
      (processBatch ⟨fw, fun _ => 1, bw, os⟩
        ⟨params, opt, ⟨true, w1, fun w p t => List.zipWith (fun a b => a * b) w (base p t)⟩,
          grads⟩ features prefs).map obs ∧
    (step ⟨fw, fun _ => 1, bw, os⟩
        ⟨params, opt, ⟨false, w0, fun _ p t => base p t⟩, grads⟩
        user item (some rtng) (some pref)).map obs =
      (step ⟨fw, fun _ => 1, bw, os⟩
        ⟨params, opt, ⟨true, w1, fun w p t => List.zipWith (fun a b => a * b) w (base p t)⟩,
          grads⟩ user item (some rtng) (some pref)).map obs := by
  constructor
  · refine processBatch_obs_congr _ _ _ features prefs rfl rfl rfl ?_
    intro rtngs h2 preds
    have hn : rtngs.length = features.length := getCol_length features 2 rtngs h2
    simp only [injectWeight, applyObjective]
    norm_num
    rw [hn, zipWith_replicate_one (base preds prefs) features.length (le_of_eq (hlen preds))]
  · refine step_obs_congr _ _ _ user item rtng pref rfl rfl rfl ?_
    intro preds
    simp only [injectWeight, applyObjective]
    norm_num
    rw [zipWith_replicate_one (base preds pref) rtng.length (le_trans (le_of_eq (hlen1 preds)) hr)]

theorem confidence_one_equiv_witness :
    ((processBatch ⟨fun θ u i => θ.headD 0 * u * i, fun _ => 1,
        fun f θ => θ.map (fun _ => f θ),
        fun s θ g => (s, List.zipWith (fun a b => a - b) θ g)⟩
        ⟨[0], (), ⟨false, [9], fun _ p t => [(List.zipWith (fun a b => a - b) p t).sum]⟩, [0]⟩
        [[1, 2, 3]] [5]).map obs =
      (processBatch ⟨fun θ u i => θ.headD 0 * u * i, fun _ => 1,
        fun f θ => θ.map (fun _ => f θ),
        fun s θ g => (s, List.zipWith (fun a b => a - b) θ g)⟩
        ⟨[0], (), ⟨true, [9], fun w p t => List.zipWith (fun a b => a * b) w
          [(List.zipWith (fun a b => a - b) p t).sum]⟩, [0]⟩
        [[1, 2, 3]] [5]).map obs) ∧
    ((step ⟨fun θ u i => θ.headD 0 * u * i, fun _ => 1,
        fun f θ => θ.map (fun _ => f θ),
        fun s θ g => (s, List.zipWith (fun a b => a - b) θ g)⟩
        ⟨[0], (), ⟨false, [9], fun _ p t => [(List.zipWith (fun a b => a - b) p t).sum]⟩, [0]⟩
        [1] [2] (some [3]) (some [5])).map obs =
      (step ⟨fun θ u i => θ.headD 0 * u * i, fun _ => 1,
        fun f θ => θ.map (fun _ => f θ),
        fun s θ g => (s, List.zipWith (fun a b => a - b) θ g)⟩
        ⟨[0], (), ⟨true, [9], fun w p t => List.zipWith (fun a b => a * b) w
          [(List.zipWith (fun a b => a - b) p t).sum]⟩, [0]⟩
        [1] [2] (some [3]) (some [5])).map obs) :=
  confidence_one_equiv (fun θ u i => θ.headD 0 * u * i)
    (fun f θ => θ.map (fun _ => f θ))
    (fun s θ g => (s, List.zipWith (fun a b => a - b) θ g))
    (fun p t => [(List.zipWith (fun a b => a - b) p t).sum])
    [0] [0] () [9] [9] [[1, 2, 3]] [5] [1] [2] [3] [5]
    (by intro preds; rfl) (by norm_num) (by intro preds; rfl)

/-- C1, counterexample to the claim as stated: with scores `[1, 2]` the call
`predict(user 0, k = 2)` returns `[0, 1]` — the ascending slice `[-k:]` of
`argsort` — although item 0 scores strictly below item 1, so the result is
not ordered by descending score; moreover `k = 0` returns every item instead
of none, because the Python slice `[-0:]` is the whole list. -/
theorem predict_not_descending :
    predict demoEngine 0 2 = .ok [0, 1] ∧
    scoreAt demoEngine 0 0 < scoreAt demoEngine 0 1 ∧
    predict demoEngine 0 0 = .ok [0, 1] := by
  refine ⟨?_, ?_, ?_⟩
  · norm_num [predict, scoresOf, dot, argsortAsc, demoEngine,
      List.insertionSort, List.orderedInsert, List.range_succ]
  · norm_num [scoreAt, scoresOf, dot, demoEngine]
  · norm_num [predict, scoresOf, dot, argsortAsc, demoEngine,
      List.insertionSort, List.orderedInsert, List.range_succ]

/-- C1 (amended): for a user id in range, `1 ≤ k ≤` the number of items and
pairwise-distinct scores, `predict(user, k)` returns exactly the `k` item
identifiers whose dot products with the user's embedding are the `k`
largest — ordered by ascending score (highest-scoring item last), not
descending; for `k = 0` the code returns all items. -/
theorem predict_topk_ascending (en : Step) (user k : Nat)
    (hu : user < en.user_embeddings.length)
    (hk1 : 1 ≤ k) (hkN : k ≤ en.item_embeddings.length)
    (hdist : (scoresOf en user).Nodup) :
    ∃ R, predict en user k = .ok R ∧
      R.length = k ∧ R.Nodup ∧
      (∀ i ∈ R, i < en.item_embeddings.length) ∧
      (∀ i ∈ R, ∀ j, j < en.item_embeddings.length → j ∉ R →
        scoreAt en user j < scoreAt en user i) ∧
      R.Sorted (fun a b => scoreAt en user a ≤ scoreAt en user b) := by
  have hk0 : k ≠ 0 := by omega
  have hpred : predict en user k =
      .ok ((argsortAsc (scoresOf en user)).drop
        ((argsortAsc (scoresOf en user)).length - k)) := by
    simp only [predict, if_pos hu, if_neg hk0]
  have hslen : (scoresOf en user).length = en.item_embeddings.length := by
    simp [scoresOf]
  haveI htot : IsTotal ℕ
      (fun i j => (scoresOf en user).getD i 0 ≤ (scoresOf en user).getD j 0) :=
    ⟨fun a b => le_total _ _⟩
  haveI htrans : IsTrans ℕ
      (fun i j => (scoresOf en user).getD i 0 ≤ (scoresOf en user).getD j 0) :=
    ⟨fun a b c hab hbc => le_trans hab hbc⟩
  have hperm : List.Perm (argsortAsc (scoresOf en user))
      (List.range (scoresOf en user).length) :=
    List.perm_insertionSort _ _
  have hsorted : (argsortAsc (scoresOf en user)).Pairwise
      (fun i j => (scoresOf en user).getD i 0 ≤ (scoresOf en user).getD j 0) :=
    List.sorted_insertionSort _ _
  have hLlen : (argsortAsc (scoresOf en user)).length = en.item_embeddings.length := by
    rw [hperm.length_eq, List.length_range, hslen]
  have hLnodup : (argsortAsc (scoresOf en user)).Nodup :=
    hperm.nodup_iff.mpr (List.nodup_range _)
  have hmem : ∀ a, a ∈ argsortAsc (scoresOf en user) ↔ a < en.item_embeddings.length := by
    intro a
    rw [hperm.mem_iff, List.mem_range, hslen]
  have hsub : List.Sublist
      ((argsortAsc (scoresOf en user)).drop ((argsortAsc (scoresOf en user)).length - k))
      (argsortAsc (scoresOf en user)) :=
    List.drop_sublist _ _
  have hgetD : ∀ j, j < en.item_embeddings.length → ∀ hj : j < (scoresOf en user).length,
      (scoresOf en user).getD j 0 = (scoresOf en user).get ⟨j, hj⟩ := by
    intro j _ hj
    exact List.getD_eq_get (scoresOf en user) 0 hj
  refine ⟨(argsortAsc (scoresOf en user)).drop ((argsortAsc (scoresOf en user)).length - k),
    hpred, ?_, ?_, ?_, ?_, ?_⟩
  · rw [List.length_drop]
    omega
  · exact hLnodup.sublist hsub
  · intro i hi
    exact (hmem i).mp (List.mem_of_mem_drop hi)
  · intro i hi j hjN hjR
    have hjL : j ∈ argsortAsc (scoresOf en user) := (hmem j).mpr hjN
    have hjT : j ∈ (argsortAsc (scoresOf en user)).take
        ((argsortAsc (scoresOf en user)).length - k) := by
      have := (List.take_append_drop ((argsortAsc (scoresOf en user)).length - k)
        (argsortAsc (scoresOf en user))).symm ▸ hjL
      rcases List.mem_append.mp this with h | h
      · exact h
      · exact absurd h hjR
    have hpairTD : ((argsortAsc (scoresOf en user)).take
        ((argsortAsc (scoresOf en user)).length - k) ++
        (argsortAsc (scoresOf en user)).drop
        ((argsortAsc (scoresOf en user)).length - k)).Pairwise
        (fun i j => (scoresOf en user).getD i 0 ≤ (scoresOf en user).getD j 0) := by
      rw [List.take_append_drop]
      exact hsorted
    have hle : (scoresOf en user).getD j 0 ≤ (scoresOf en user).getD i 0 :=
      (List.pairwise_append.mp hpairTD).2.2 j hjT i hi
    have hiN : i < en.item_embeddings.length := (hmem i).mp (List.mem_of_mem_drop hi)
    have hne : j ≠ i := fun he => hjR (he ▸ hi)
    have hj2 : j < (scoresOf en user).length := by omega
    have hi2 : i < (scoresOf en user).length := by omega
    have hneq : (scoresOf en user).getD j 0 ≠ (scoresOf en user).getD i 0 := by
      rw [hgetD j hjN hj2, hgetD i hiN hi2]
      intro he
      have := (hdist.get_inj_iff).mp he
      exact hne (congrArg Fin.val this)
    show scoreAt en user j < scoreAt en user i
    unfold scoreAt
    exact lt_of_le_of_ne hle hneq
  · have hpw : ((argsortAsc (scoresOf en user)).drop
        ((argsortAsc (scoresOf en user)).length - k)).Pairwise
        (fun i j => (scoresOf en user).getD i 0 ≤ (scoresOf en user).getD j 0) :=
      hsorted.sublist hsub
    exact hpw

theorem predict_topk_ascending_witness :
    ∃ R, predict demoEngine 0 2 = .ok R ∧
      R.length = 2 ∧ R.Nodup ∧
      (∀ i ∈ R, i < demoEngine.item_embeddings.length) ∧
      (∀ i ∈ R, ∀ j, j < demoEngine.item_embeddings.length → j ∉ R →
        scoreAt demoEngine 0 j < scoreAt demoEngine 0 i) ∧
      R.Sorted (fun a b => scoreAt demoEngine 0 a ≤ scoreAt demoEngine 0 b) :=
  predict_topk_ascending demoEngine 0 2 (by norm_num [demoEngine])
    (by norm_num) (by norm_num [demoEngine])
    (by norm_num [scoresOf, dot, demoEngine])

end CfStep
